import Mathlib

/-!
Verification of the Metropolis sampler in `src/metropolis.py` and
`src/metropolis_backup.py`.

The embedding works over `ℚ` for energies, spin values and uniform draws.
The exponential used by the acceptance rule (`np.exp`) is passed explicitly
as a function argument `expf : ℚ → ℚ`; the claims about the acceptance rule
that genuinely depend on properties of the real exponential are stated over
`ℝ` with `Real.exp` (`choiceReal`, `acceptanceReal` below).

Randomness is modelled by explicit streams: `flips : ℕ → ℕ` for the
proposal indices drawn by `np.random.randint(0, S)` and `unif : ℕ → ℚ` for
the uniform draws of `np.random.random()`; the initial configuration drawn
by `np.random.choice([+1,-1], size=S)` is an input constrained to ±1
entries.  Every concrete execution of the Python program corresponds to
some choice of these streams.
-/

namespace Forests

/-- `np.dot` on two 1-D arrays (the program only ever applies it to
equal-length vectors). -/
def dot (xs ys : List ℚ) : ℚ := (List.zipWith (fun a b => a * b) xs ys).sum

/-- Sampler attribute state as left by `Metropolis.__init__`
(src/metropolis.py lines 27-36). -/
structure MetInit where
  S : ℤ
  M : ℤ
  N : ℤ
  max_acceptance : ℚ
  history : List ℕ
  L_multipliers : Option (List ℚ)
  constraint_funcs : Option (List (List ℚ → ℚ))
  configs : Option (List (List ℚ))

/-- `Metropolis.__init__` (src/metropolis.py lines 27-36): stores the four
parameters and initialises the remaining attributes; the body contains no
check and no `raise`, so construction always succeeds. -/
def metInit (S M N : ℤ) (max_acceptance : ℚ) : Except String MetInit :=
  .ok { S := S, M := M, N := N, max_acceptance := max_acceptance,
        history := [], L_multipliers := none, constraint_funcs := none,
        configs := none }

/-- `Metropolis.set_hamiltonian` (src/metropolis.py lines 38-43): assigns
both attributes first, then raises when the lengths differ.  The result is
the attribute state after the call together with the raised exception
message, if any. -/
def set_hamiltonian (st : MetInit) (L_multipliers : List ℚ)
    (constraint_funcs : List (List ℚ → ℚ)) : MetInit × Option String :=
  let st' := { st with L_multipliers := some L_multipliers,
                       constraint_funcs := some constraint_funcs }
  if L_multipliers.length ≠ constraint_funcs.length then
    (st', some ("L_multipliers and constraint_funcs must have the same length!"))
  else
    (st', none)

/-- `Metropolis.choice` (src/metropolis.py lines 51-62), parametric in the
two energies and in the next uniform draw `P`.  The second component is the
number of uniform draws consumed (0 on the unconditional-accept branch,
1 otherwise). -/
def choice (expf : ℚ → ℚ) (last_energy new_energy P : ℚ) : Bool × ℕ :=
  if new_energy < last_energy then (true, 0)
  else if P < expf (last_energy - new_energy) then (true, 1)
  else (false, 1)

/-- `Metropolis.acceptance` (src/metropolis_backup.py lines 69-80),
parametric in the energy difference `dEv` and the next uniform draw `P`;
second component as in `choice`. -/
def acceptance (expf : ℚ → ℚ) (dEv P : ℚ) : Bool × ℕ :=
  if dEv < 0 then (true, 0)
  else if P < expf (-dEv) then (true, 1)
  else (false, 1)

/-- `np.count_nonzero` on one configuration row. -/
def countNonzero (cfg : List ℚ) : ℕ := (cfg.filter (fun x => decide (x ≠ 0))).length

/-- `pairing` (src/metropolis_backup.py lines 3-10) evaluated on a single
configuration row (`n = 1`, so the mean over rows is the value itself).
The source references a module-global `S`; per the spec `S` is the system
size, passed here explicitly. -/
def pairing (S : ℕ) (cfg : List ℚ) : ℚ :=
  (2 * (countNonzero cfg : ℚ) - (S : ℚ)) ^ 2

/-- `model_m` (src/metropolis_backup.py lines 13-16) evaluated on a single
configuration row: `p_i` is 1 exactly on the nonzero entries. -/
def model_m (cfg : List ℚ) : List ℚ :=
  cfg.map (fun c => 2 * (if c ≠ 0 then (1 : ℚ) else 0) - 1)

/-- `compute_energy` (src/metropolis_backup.py lines 19-24) evaluated on a
single configuration row: the dot product of
`concatenate((pairing, model_m))` with the multipliers. -/
def compute_energyB (S : ℕ) (cfg : List ℚ) (L_multipliers : List ℚ) : ℚ :=
  dot (pairing S cfg :: model_m cfg) L_multipliers

/-- `Metropolis.dE` (src/metropolis_backup.py lines 63-66):
`2*l_k*spin + 4*l_0*spin*(2*Sp - S + spin)` with `l_k = L_multipliers[k]`
and `l_0 = L_multipliers[0]`. -/
def dE (L_multipliers : List ℚ) (S : ℕ) (Sp spin : ℚ) (k : ℕ) : ℚ :=
  let l_k := L_multipliers.getD k 0
  let l_0 := L_multipliers.getD 0 0
  2 * l_k * spin + 4 * l_0 * spin * (2 * Sp - (S : ℚ) + spin)

/-- Body of the inner `for index in flip_spins` loop of
`Metropolis.calibrate` (src/metropolis_backup.py lines 96-101): one
proposed flip, processed against the current `(configuration, Sp,
acceptance_history)`; `P` is the uniform draw the acceptance rule would
consume.  Note the loop appends to the history only on acceptance. -/
def bkupCalStep (expf : ℚ → ℚ) (L_multipliers : List ℚ) (S : ℕ) (P : ℚ)
    (cfg : List ℚ) (Sp : ℚ) (hist : List ℕ) (index : ℕ) :
    List ℚ × ℚ × List ℕ :=
  let spin := -(cfg.getD index 0)
  if (acceptance expf (dE L_multipliers S Sp spin index) P).1 then
    (cfg.set index spin, Sp + spin, hist ++ [1])
  else
    (cfg, Sp, hist)

/-- Body of the sampling loop of `Metropolis.sample`
(src/metropolis_backup.py lines 123-132): one proposed flip; the result is
`(configuration, Sp, row stored into model_configs[k+1])`.  No
acceptance-history update occurs anywhere in this loop. -/
def bkupSampleStep (expf : ℚ → ℚ) (L_multipliers : List ℚ) (S : ℕ) (P : ℚ)
    (cfg : List ℚ) (Sp : ℚ) (index : ℕ) :
    List ℚ × ℚ × List ℚ :=
  let spin := -(cfg.getD index 0)
  if (acceptance expf (dE L_multipliers S Sp spin index) P).1 then
    (cfg.set index spin, Sp + spin, cfg.set index spin)
  else
    (cfg, Sp, cfg)

/-- Fixed data of one sampling run of src/metropolis.py: the constructor
parameters that the run reads, the Hamiltonian set by `set_hamiltonian`,
the exponential used by `choice`, and the streams of random draws
(`flips n` is the n-th index drawn by `np.random.randint(0, S)`, `unif n`
the n-th value drawn by `np.random.random()`). -/
structure Model where
  S : ℕ
  M : ℕ
  max_acceptance : ℚ
  L_multipliers : List ℚ
  constraint_funcs : List (List ℚ → ℚ)
  expf : ℚ → ℚ
  flips : ℕ → ℕ
  unif : ℕ → ℚ

/-- `Metropolis.compute_energy` (src/metropolis.py lines 45-48). -/
def compute_energy (m : Model) (s : List ℚ) : ℚ :=
  dot (m.constraint_funcs.map (fun f => f s)) m.L_multipliers

/-- The proposed configuration: copy the current one and negate the spin at
index `k` (src/metropolis.py lines 72-74, 90-91, 119-120). -/
def flipAt (s : List ℚ) (k : ℕ) : List ℚ := s.set k (-(s.getD k 0))

/-- Mutable state threaded through a run: the current configuration
(`s_last`), `self.history`, and the positions reached in the two random
streams. -/
structure Chain where
  cfg : List ℚ
  hist : List ℕ
  fi : ℕ
  ui : ℕ

/-- The acceptance outcome of the next proposal from state `st`. -/
def stepAccepted (m : Model) (st : Chain) : Bool :=
  (choice m.expf (compute_energy m st.cfg)
    (compute_energy m (flipAt st.cfg (m.flips st.fi))) (m.unif st.ui)).1

/-- One proposal step, shared verbatim by the calibration loop
(src/metropolis.py lines 89-97) and the sampling loop (lines 117-127):
draw a flip index, build `s_next`, run `choice`, and either adopt the new
configuration appending 1 to the history, or keep the old one appending 0. -/
def mcStep (m : Model) (st : Chain) : Chain :=
  let s_next := flipAt st.cfg (m.flips st.fi)
  let c := choice m.expf (compute_energy m st.cfg) (compute_energy m s_next)
    (m.unif st.ui)
  if c.1 then
    { cfg := s_next, hist := st.hist ++ [1], fi := st.fi + 1, ui := st.ui + c.2 }
  else
    { cfg := st.cfg, hist := st.hist ++ [0], fi := st.fi + 1, ui := st.ui + c.2 }

/-- `np.mean(self.history[-index:])` with `index = min(len(history), M)`
(src/metropolis.py lines 85, 88, 100). -/
def winMean (h : List ℕ) (M : ℕ) : ℚ :=
  let index := min h.length M
  ((h.drop (h.length - index)).map (fun x => (x : ℚ))).sum / (index : ℚ)

/-- The `while` condition of `Metropolis.calibrate`
(src/metropolis.py lines 87-88):
`len(history) < M or (mean(history[-index:]) > max_acceptance and
len(history) >= M)`. -/
def calGuard (m : Model) (h : List ℕ) : Bool :=
  decide (h.length < m.M) ||
    (decide (m.max_acceptance < winMean h m.M) && decide (m.M ≤ h.length))

/-- The calibration `while` loop, with explicit fuel: `none` models the
case in which the loop has not terminated within `fuel` iterations. -/
def calLoop (m : Model) : ℕ → Chain → Option Chain
  | 0, st => if calGuard m st.hist then none else some st
  | fuel + 1, st =>
      if calGuard m st.hist then calLoop m fuel (mcStep m st) else some st

/-- `Metropolis.calibrate` (src/metropolis.py lines 64-105) from a given
initial configuration (drawn by `np.random.choice([+1,-1], size=S)`) and
incoming history `h0` (`self.history` persists across calls): one proposal
is made before the loop, then the loop runs; the final configuration is
the one frozen into `configs[0]`. -/
def calibrate (m : Model) (s0 : List ℚ) (h0 : List ℕ) (fuel : ℕ) :
    Option Chain :=
  calLoop m fuel (mcStep m { cfg := s0, hist := h0, fi := 0, ui := 0 })

/-- `n` successive proposal steps from `st`. -/
def chainIter (m : Model) (st : Chain) : ℕ → Chain
  | 0 => st
  | n + 1 => mcStep m (chainIter m st n)

/-- The sampling `for` loop (src/metropolis.py lines 116-127): performs `n`
proposal steps, returning the rows written into `configs[1..n]` and the
final state. -/
def sampleRows (m : Model) : ℕ → Chain → List (List ℚ) × Chain
  | 0, st => ([], st)
  | n + 1, st =>
      let st' := mcStep m st
      let p := sampleRows m n st'
      (st'.cfg :: p.1, p.2)

/-- `Metropolis.sample` (src/metropolis.py lines 107-129): allocate the
trajectory, calibrate (row 0), then sample `N - 1` further rows.  `none`
models a run that fails: `N = 0` makes `configs[0] = ...` in `calibrate`
raise an IndexError on the empty array, and exhausted fuel models a
non-terminating calibration. -/
def sample (m : Model) (N : ℕ) (s0 : List ℚ) (h0 : List ℕ) (fuel : ℕ) :
    Option (List (List ℚ) × Chain) :=
  if N = 0 then none
  else
    match calibrate m s0 h0 fuel with
    | none => none
    | some st =>
        let p := sampleRows m (N - 1) st
        some (st.cfg :: p.1, p.2)

/-- A configuration is well-formed for `m` when it has `S` entries, all ±1. -/
def goodCfg (m : Model) (c : List ℚ) : Prop :=
  c.length = m.S ∧ ∀ x ∈ c, x = 1 ∨ x = -1

/-- A concrete one-spin run used to instantiate the universally quantified
theorems: `S = M = 1`, `max_acceptance = 1`, empty Hamiltonian, exponential
and both random streams constantly 0.  Its single proposal is rejected, so
calibration stops right after its first (pre-loop) proposal. -/
def m0 : Model :=
  { S := 1, M := 1, max_acceptance := 1, L_multipliers := [],
    constraint_funcs := [], expf := fun _ => 0, flips := fun _ => 0,
    unif := fun _ => 0 }

/-- `Metropolis.choice` over `ℝ` with the genuine exponential, for the
claims about the range of the acceptance probability. -/
noncomputable def choiceReal (last_energy new_energy P : ℝ) : Bool :=
  if new_energy < last_energy then true
  else if P < Real.exp (last_energy - new_energy) then true
  else false

/-- `Metropolis.acceptance` over `ℝ` with the genuine exponential. -/
noncomputable def acceptanceReal (dEv P : ℝ) : Bool :=
  if dEv < 0 then true
  else if P < Real.exp (-dEv) then true
  else false

/-! ### Helper lemmas about the chain model -/

lemma mem_of_mem_set {α : Type} {l : List α} {k : ℕ} {v x : α}
    (hx : x ∈ l.set k v) : x ∈ l ∨ x = v := by
  induction l generalizing k with
  | nil => simp [List.set] at hx
  | cons a t ih =>
    cases k with
    | zero =>
      rcases List.mem_cons.mp hx with h | h
      · exact Or.inr h
      · exact Or.inl (List.mem_cons_of_mem a h)
    | succ n =>
      rcases List.mem_cons.mp hx with h | h
      · exact Or.inl (h ▸ List.mem_cons_self a t)
      · rcases ih h with h2 | h2
        · exact Or.inl (List.mem_cons_of_mem a h2)
        · exact Or.inr h2

lemma getD_mem {l : List ℚ} {k : ℕ} (h : k < l.length) : l.getD k 0 ∈ l := by
  induction l generalizing k with
  | nil => simp at h
  | cons a t ih =>
    cases k with
    | zero => simp
    | succ n =>
      simp only [List.getD_cons_succ]
      exact List.mem_cons_of_mem a (ih (Nat.lt_of_succ_lt_succ h))

lemma length_flipAt (s : List ℚ) (k : ℕ) : (flipAt s k).length = s.length := by
  simp [flipAt]

lemma pm_flipAt {s : List ℚ} {k : ℕ} (hk : k < s.length)
    (hs : ∀ x ∈ s, x = 1 ∨ x = -1) : ∀ x ∈ flipAt s k, x = 1 ∨ x = -1 := by
  intro x hx
  rcases mem_of_mem_set hx with h | h
  · exact hs x h
  · rcases hs _ (getD_mem hk) with h1 | h1 <;> rw [h, h1] <;> norm_num

lemma mcStep_cfg (m : Model) (st : Chain) :
    (mcStep m st).cfg
      = if stepAccepted m st then flipAt st.cfg (m.flips st.fi) else st.cfg := by
  by_cases h : stepAccepted m st = true <;>
    simp only [stepAccepted] at h <;> simp [mcStep, stepAccepted, h]

lemma mcStep_hist (m : Model) (st : Chain) :
    (mcStep m st).hist = st.hist ++ [if stepAccepted m st then 1 else 0] := by
  by_cases h : stepAccepted m st = true <;>
    simp only [stepAccepted] at h <;> simp [mcStep, stepAccepted, h]

lemma goodCfg_mcStep {m : Model} {st : Chain}
    (hf : ∀ n, m.flips n < m.S) (h : goodCfg m st.cfg) :
    goodCfg m (mcStep m st).cfg := by
  rw [mcStep_cfg]
  by_cases hacc : stepAccepted m st = true
  · rw [if_pos hacc]
    have hk : m.flips st.fi < st.cfg.length := by rw [h.1]; exact hf st.fi
    exact ⟨by rw [length_flipAt]; exact h.1, pm_flipAt hk h.2⟩
  · rw [if_neg hacc]
    exact h

lemma chainIter_shift (m : Model) (st : Chain) (n : ℕ) :
    chainIter m (mcStep m st) n = chainIter m st (n + 1) := by
  induction n with
  | zero => rfl
  | succ k ih => show mcStep m _ = _; rw [ih]; rfl

lemma chainIter_hist_length (m : Model) (st : Chain) (n : ℕ) :
    (chainIter m st n).hist.length = st.hist.length + n := by
  induction n with
  | zero => rfl
  | succ k ih =>
    show (mcStep m (chainIter m st k)).hist.length = _
    rw [mcStep_hist, List.length_append, ih]
    simp [Nat.add_assoc]

lemma goodCfg_chainIter {m : Model} {st : Chain}
    (hf : ∀ n, m.flips n < m.S) (h : goodCfg m st.cfg) (n : ℕ) :
    goodCfg m (chainIter m st n).cfg := by
  induction n with
  | zero => exact h
  | succ k ih => exact goodCfg_mcStep hf ih

lemma calGuard_true_iff (m : Model) (h : List ℕ) :
    calGuard m h = true ↔
      (h.length < m.M ∨ m.max_acceptance < winMean h m.M) := by
  simp only [calGuard, Bool.or_eq_true, Bool.and_eq_true, decide_eq_true_eq]
  constructor
  · rintro (h1 | ⟨h2, _⟩)
    · exact Or.inl h1
    · exact Or.inr h2
  · rintro (h1 | h2)
    · exact Or.inl h1
    · by_cases hlen : h.length < m.M
      · exact Or.inl hlen
      · exact Or.inr ⟨h2, Nat.le_of_not_lt hlen⟩

lemma calGuard_false_iff (m : Model) (h : List ℕ) :
    calGuard m h = false ↔
      (m.M ≤ h.length ∧ winMean h m.M ≤ m.max_acceptance) := by
  rw [← Bool.not_eq_true, calGuard_true_iff]
  push_neg
  exact Iff.rfl

lemma calLoop_some_chainIter {m : Model} :
    ∀ {fuel : ℕ} {st st2 : Chain}, calLoop m fuel st = some st2 →
      ∃ n, n ≤ fuel ∧ st2 = chainIter m st n := by
  intro fuel
  induction fuel with
  | zero =>
    intro st st2 hst
    unfold calLoop at hst
    by_cases g : calGuard m st.hist = true
    · rw [if_pos g] at hst; exact absurd hst (by simp)
    · rw [if_neg g] at hst
      exact ⟨0, Nat.le_refl 0, (Option.some.injEq _ _ ▸ hst).symm⟩
  | succ k ih =>
    intro st st2 hst
    unfold calLoop at hst
    by_cases g : calGuard m st.hist = true
    · rw [if_pos g] at hst
      rcases ih hst with ⟨n, hn, he⟩
      exact ⟨n + 1, Nat.succ_le_succ hn, by rw [he, chainIter_shift]⟩
    · rw [if_neg g] at hst
      exact ⟨0, Nat.zero_le _, (Option.some.injEq _ _ ▸ hst).symm⟩

lemma calLoop_some_guard {m : Model} :
    ∀ {fuel : ℕ} {st st2 : Chain}, calLoop m fuel st = some st2 →
      calGuard m st2.hist = false := by
  intro fuel
  induction fuel with
  | zero =>
    intro st st2 hst
    unfold calLoop at hst
    by_cases g : calGuard m st.hist = true
    · rw [if_pos g] at hst; exact absurd hst (by simp)
    · rw [if_neg g] at hst
      rw [← Option.some.inj hst]
      exact Bool.eq_false_iff.mpr g
  | succ k ih =>
    intro st st2 hst
    unfold calLoop at hst
    by_cases g : calGuard m st.hist = true
    · rw [if_pos g] at hst; exact ih hst
    · rw [if_neg g] at hst
      rw [← Option.some.inj hst]
      exact Bool.eq_false_iff.mpr g

lemma goodCfg_calLoop {m : Model} {fuel : ℕ} {st st2 : Chain}
    (hf : ∀ n, m.flips n < m.S) (hst : calLoop m fuel st = some st2)
    (h : goodCfg m st.cfg) : goodCfg m st2.cfg := by
  rcases calLoop_some_chainIter hst with ⟨n, _, he⟩
  rw [he]
  exact goodCfg_chainIter hf h n

lemma sampleRows_fst_length (m : Model) :
    ∀ (n : ℕ) (st : Chain), ((sampleRows m n st).1).length = n := by
  intro n
  induction n with
  | zero => intro st; rfl
  | succ k ih => intro st; simpa [sampleRows] using ih (mcStep m st)

lemma sampleRows_snd (m : Model) :
    ∀ (n : ℕ) (st : Chain), (sampleRows m n st).2 = chainIter m st n := by
  intro n
  induction n with
  | zero => intro st; rfl
  | succ k ih =>
    intro st
    show (sampleRows m k (mcStep m st)).2 = _
    rw [ih (mcStep m st), chainIter_shift]

lemma sampleRows_getD (m : Model) :
    ∀ (n : ℕ) (st : Chain) (j : ℕ), j < n →
      ((sampleRows m n st).1).getD j [] = (chainIter m st (j + 1)).cfg := by
  intro n
  induction n with
  | zero => intro st j hj; exact absurd hj (Nat.not_lt_zero j)
  | succ k ih =>
    intro st j hj
    cases j with
    | zero => rfl
    | succ i =>
      show ((sampleRows m k (mcStep m st)).1).getD i [] = _
      rw [ih (mcStep m st) i (Nat.lt_of_succ_lt_succ hj), chainIter_shift]

lemma goodCfg_sampleRows {m : Model} (hf : ∀ n, m.flips n < m.S) :
    ∀ (n : ℕ) (st : Chain), goodCfg m st.cfg →
      ∀ row ∈ (sampleRows m n st).1, goodCfg m row := by
  intro n
  induction n with
  | zero => intro st _ row hrow; simp [sampleRows] at hrow
  | succ k ih =>
    intro st h row hrow
    rcases List.mem_cons.mp hrow with h1 | h1
    · rw [h1]; exact goodCfg_mcStep hf h
    · exact ih (mcStep m st) (goodCfg_mcStep hf h) row h1

lemma sample_some_spec {m : Model} {N : ℕ} {s0 : List ℚ} {h0 : List ℕ}
    {fuel : ℕ} {traj : List (List ℚ)} {stf stC : Chain}
    (hN : N ≠ 0) (hcal : calibrate m s0 h0 fuel = some stC)
    (hrun : sample m N s0 h0 fuel = some (traj, stf)) :
    traj = stC.cfg :: (sampleRows m (N - 1) stC).1 ∧
      stf = (sampleRows m (N - 1) stC).2 := by
  unfold sample at hrun
  rw [if_neg hN, hcal] at hrun
  simp only [Option.some.injEq, Prod.mk.injEq] at hrun
  exact ⟨hrun.1.symm, hrun.2.symm⟩

/-! ### Concrete evaluations of the chain model on the run `m0` -/

lemma calGuard_m0_eval : calGuard m0 [0] = false := by
  rw [calGuard_false_iff]
  refine ⟨Nat.le_refl 1, ?_⟩
  norm_num [winMean, m0]

lemma calLoop_m0_eval :
    calLoop m0 1 (Chain.mk [1] [0] 1 1) = some (Chain.mk [1] [0] 1 1) := by
  have h : calLoop m0 1 (Chain.mk [1] [0] 1 1)
      = if calGuard m0 [0] then calLoop m0 0 (mcStep m0 (Chain.mk [1] [0] 1 1))
        else some (Chain.mk [1] [0] 1 1) := rfl
  rw [h, calGuard_m0_eval]
  simp

lemma calibrate_m0_eval : calibrate m0 [1] [] 1 = some (Chain.mk [1] [0] 1 1) := by
  have h : calibrate m0 [1] [] 1 = calLoop m0 1 (Chain.mk [1] [0] 1 1) := rfl
  rw [h, calLoop_m0_eval]

lemma sampleRows_m0_eval :
    sampleRows m0 1 (Chain.mk [1] [0] 1 1) = ([[1]], Chain.mk [1] [0, 0] 2 2) := rfl

lemma sample_m0_one_eval :
    sample m0 1 [1] [] 1 = some ([[1]], Chain.mk [1] [0] 1 1) := by
  unfold sample
  rw [calibrate_m0_eval]
  norm_num [sampleRows]

lemma sample_m0_two_eval :
    sample m0 2 [1] [] 1 = some ([[1], [1]], Chain.mk [1] [0, 0] 2 2) := by
  unfold sample
  rw [calibrate_m0_eval]
  norm_num [sampleRows_m0_eval]

/-! ### The claims -/

/-- C1: at the valid input S = 2, multipliers [0,1,2], Sp = 1, spin = +1,
k = 1 (configuration [+1,-1] flipped at index 1 to [+1,+1]), the
closed-form `dE` returns 2, while the generic-form energy difference
obtained by full re-evaluation of `compute_energy` before and after the
flip is 0 (both ±1 configurations have every entry nonzero, so `pairing`
and `model_m` do not change), so the two disagree. -/
theorem C1_dE_disagrees_with_reevaluation :
    dE [0, 1, 2] 2 1 1 1 = 2 ∧
    compute_energyB 2 [1, 1] [0, 1, 2] - compute_energyB 2 [1, -1] [0, 1, 2] = 0 ∧
    dE [0, 1, 2] 2 1 1 1 ≠
      compute_energyB 2 [1, 1] [0, 1, 2] - compute_energyB 2 [1, -1] [0, 1, 2] := by
  refine ⟨by norm_num [dE], ?_, ?_⟩ <;>
    norm_num [dE, compute_energyB, pairing, model_m, dot, countNonzero]

/-- C2: both acceptance formulations implement the same rule.
`choice` on energies `(E_old, E_new)` coincides with `acceptance` on
`dE = E_new - E_old`; when `dE < 0` the proposal is accepted with no
uniform draw consumed, and otherwise exactly one uniform draw `P` is
consumed and the proposal is accepted iff `P < exp(-dE)`
(equivalently `P < exp(E_old - E_new)`). -/
theorem C2_acceptance_rule (expf : ℚ → ℚ) (last_energy new_energy P : ℚ) :
    choice expf last_energy new_energy P
      = acceptance expf (new_energy - last_energy) P ∧
    (new_energy - last_energy < 0 →
      choice expf last_energy new_energy P = (true, 0)) ∧
    (0 ≤ new_energy - last_energy →
      choice expf last_energy new_energy P
        = (if P < expf (-(new_energy - last_energy)) then (true, 1)
           else (false, 1))) := by
  have harg : last_energy - new_energy = -(new_energy - last_energy) := by ring
  have hlt : new_energy - last_energy < 0 ↔ new_energy < last_energy := sub_neg
  refine ⟨?_, ?_, ?_⟩
  · unfold choice acceptance
    rw [harg]
    by_cases h : new_energy < last_energy
    · rw [if_pos h, if_pos (hlt.mpr h)]
    · rw [if_neg h, if_neg (fun hc => h (hlt.mp hc))]
  · intro h
    unfold choice
    rw [if_pos (hlt.mp h)]
  · intro h
    have h' : ¬ new_energy < last_energy := fun hc => absurd (hlt.mpr hc) (not_lt.mpr h)
    unfold choice
    rw [if_neg h', harg]

/-- C2 witness: with `E_old = 1`, `E_new = 0` the energy decreases, so the
proposal is accepted and no uniform draw is consumed. -/
theorem C2_witness : choice (fun _ => (1 : ℚ)) 1 0 0 = (true, 0) :=
  (C2_acceptance_rule (fun _ => (1 : ℚ)) 1 0 0).2.1 (by norm_num)

/-- C3: the calibration stopping rule.  The loop guard is `true` iff fewer
than `M` outcomes exist or the mean of the most recent `min(|history|, M)`
outcomes exceeds `max_acceptance`; it is `false` iff at least `M` outcomes
exist and that windowed mean is `≤ max_acceptance`; whenever the loop
terminates, the final history satisfies the termination condition; and the
configuration current at termination is frozen as row 0 of the returned
trajectory. -/
theorem C3_calibration_stopping :
    (∀ (m : Model) (h : List ℕ),
      calGuard m h = true ↔
        (h.length < m.M ∨ m.max_acceptance < winMean h m.M)) ∧
    (∀ (m : Model) (h : List ℕ),
      calGuard m h = false ↔
        (m.M ≤ h.length ∧ winMean h m.M ≤ m.max_acceptance)) ∧
    (∀ (m : Model) (fuel : ℕ) (st st2 : Chain), calLoop m fuel st = some st2 →
      m.M ≤ st2.hist.length ∧ winMean st2.hist m.M ≤ m.max_acceptance) ∧
    (∀ (m : Model) (N : ℕ) (s0 : List ℚ) (h0 : List ℕ) (fuel : ℕ)
      (st2 : Chain), N ≠ 0 → calibrate m s0 h0 fuel = some st2 →
      ∃ rest stf, sample m N s0 h0 fuel = some (st2.cfg :: rest, stf)) :=
  ⟨calGuard_true_iff, calGuard_false_iff,
   fun m _ _ st2 h => (calGuard_false_iff m st2.hist).mp (calLoop_some_guard h),
   fun m N s0 h0 fuel st2 hN hcal =>
     ⟨(sampleRows m (N - 1) st2).1, (sampleRows m (N - 1) st2).2, by
       unfold sample; rw [if_neg hN, hcal]⟩⟩

/-- C3 witness: for the concrete run `m0` the calibration loop terminates
with history `[0]`, which indeed has at least `M = 1` entries and windowed
mean `0 ≤ max_acceptance = 1`. -/
theorem C3_witness :
    m0.M ≤ ([0] : List ℕ).length ∧ winMean [0] m0.M ≤ m0.max_acceptance :=
  C3_calibration_stopping.2.2.1 m0 1 (Chain.mk [1] [0] 1 1)
    (Chain.mk [1] [0] 1 1) calLoop_m0_eval

/-- C4 counterexample: constructing the sampler with `S = 0` (a value the
claim says must be rejected with a configuration error) succeeds and
returns the fully initialised attribute state. -/
theorem C4_counterexample :
    metInit 0 100 1000 (1 / 10)
      = .ok { S := 0, M := 100, N := 1000, max_acceptance := 1 / 10,
              history := [], L_multipliers := none, constraint_funcs := none,
              configs := none } := rfl

/-- C4 (amended): the constructor performs no validation at all — for every
`S`, `M`, `N`, `max_acceptance` (non-positive and out-of-range values
included) it succeeds and merely stores the parameters; no configuration
error is ever reported at setup. -/
theorem C4_init_never_fails (S M N : ℤ) (max_acc : ℚ) :
    metInit S M N max_acc
      = .ok { S := S, M := M, N := N, max_acceptance := max_acc,
              history := [], L_multipliers := none, constraint_funcs := none,
              configs := none } := rfl

/-- C5: whenever `sample` returns, the trajectory has exactly `N` rows,
every row has exactly `S` entries, and every entry is +1 or -1 — in
particular no returned row is the all-zero placeholder the matrix was
allocated with. -/
theorem C5_shape_and_domain (m : Model) (s0 : List ℚ) (h0 : List ℕ)
    (N fuel : ℕ) (traj : List (List ℚ)) (stf : Chain)
    (hflips : ∀ n, m.flips n < m.S)
    (hlen : s0.length = m.S) (hpm : ∀ x ∈ s0, x = 1 ∨ x = -1)
    (hN : 1 ≤ N)
    (hrun : sample m N s0 h0 fuel = some (traj, stf)) :
    traj.length = N ∧
      ∀ row ∈ traj, row.length = m.S ∧ ∀ x ∈ row, x = 1 ∨ x = -1 := by
  have hN0 : N ≠ 0 := by omega
  have hcal : ∃ stC, calibrate m s0 h0 fuel = some stC := by
    cases hcase : calibrate m s0 h0 fuel with
    | none =>
      unfold sample at hrun
      rw [if_neg hN0, hcase] at hrun
      exact absurd hrun (by simp)
    | some st => exact ⟨st, rfl⟩
  rcases hcal with ⟨stC, hcal⟩
  obtain ⟨htraj, _⟩ := sample_some_spec hN0 hcal hrun
  have hgood0 : goodCfg m (Chain.mk s0 h0 0 0).cfg := ⟨hlen, hpm⟩
  have hcal2 : calLoop m fuel (mcStep m (Chain.mk s0 h0 0 0)) = some stC := hcal
  have hgoodC : goodCfg m stC.cfg :=
    goodCfg_calLoop hflips hcal2 (goodCfg_mcStep hflips hgood0)
  constructor
  · rw [htraj]
    simp only [List.length_cons, sampleRows_fst_length]
    omega
  · intro row hrow
    rw [htraj] at hrow
    rcases List.mem_cons.mp hrow with h1 | h1
    · rw [h1]; exact hgoodC
    · exact goodCfg_sampleRows hflips (N - 1) stC hgoodC row h1

/-- C5 witness: the concrete run `m0` with `N = 1` returns the 1×1
trajectory `[[1]]`, whose single row has the right width and ±1 entries. -/
theorem C5_witness :
    ([[(1 : ℚ)]].length = 1 ∧
      ∀ row ∈ [[(1 : ℚ)]], row.length = m0.S ∧ ∀ x ∈ row, x = 1 ∨ x = -1) :=
  C5_shape_and_domain m0 [1] [] 1 1 [[1]] (Chain.mk [1] [0] 1 1)
    (fun _ => Nat.one_pos) rfl (by simp) (Nat.le_refl 1) sample_m0_one_eval

/-- C6: consecutive trajectory rows.  In src/metropolis.py, row `i` equals
the chain state after `i` production steps, and row `i+1` equals row `i`
with the proposed spin negated when the step's outcome is accept, and is
exactly row `i` when the outcome is reject.  The same holds for the row
stored by the sampling loop of src/metropolis_backup.py. -/
theorem C6_repeat_on_reject :
    (∀ (m : Model) (N : ℕ) (s0 : List ℚ) (h0 : List ℕ) (fuel : ℕ)
      (traj : List (List ℚ)) (stf stC : Chain),
      calibrate m s0 h0 fuel = some stC →
      sample m N s0 h0 fuel = some (traj, stf) →
      ∀ i, i + 1 < N →
        traj.getD i [] = (chainIter m stC i).cfg ∧
        (stepAccepted m (chainIter m stC i) = true →
          traj.getD (i + 1) []
            = flipAt (traj.getD i []) (m.flips (chainIter m stC i).fi)) ∧
        (stepAccepted m (chainIter m stC i) = false →
          traj.getD (i + 1) [] = traj.getD i [])) ∧
    (∀ (expf : ℚ → ℚ) (L : List ℚ) (S : ℕ) (P : ℚ) (cfg : List ℚ) (Sp : ℚ)
      (index : ℕ),
      ((acceptance expf (dE L S Sp (-(cfg.getD index 0)) index) P).1 = true →
        (bkupSampleStep expf L S P cfg Sp index).2.2 = flipAt cfg index) ∧
      ((acceptance expf (dE L S Sp (-(cfg.getD index 0)) index) P).1 = false →
        (bkupSampleStep expf L S P cfg Sp index).2.2 = cfg)) := by
  constructor
  · intro m N s0 h0 fuel traj stf stC hcal hrun i hi
    have hN0 : N ≠ 0 := by omega
    obtain ⟨htraj, _⟩ := sample_some_spec hN0 hcal hrun
    have hget : ∀ j, j < N → traj.getD j [] = (chainIter m stC j).cfg := by
      intro j hj
      rw [htraj]
      cases j with
      | zero => rfl
      | succ i2 =>
        rw [List.getD_cons_succ]
        exact sampleRows_getD m (N - 1) stC i2 (by omega)
    have h1 := hget i (by omega)
    have h2 := hget (i + 1) hi
    have h3 : (chainIter m stC (i + 1)).cfg
        = if stepAccepted m (chainIter m stC i)
          then flipAt (chainIter m stC i).cfg (m.flips (chainIter m stC i).fi)
          else (chainIter m stC i).cfg := mcStep_cfg m (chainIter m stC i)
    refine ⟨h1, ?_, ?_⟩
    · intro hacc
      rw [h2, h3, if_pos hacc, h1]
    · intro hacc
      rw [h2, h3, if_neg (by simp [hacc]), h1]
  · intro expf L S P cfg Sp index
    constructor <;> intro h
    · simp only [bkupSampleStep]
      rw [if_pos h]
      rfl
    · simp only [bkupSampleStep]
      rw [if_neg (by rw [h]; exact Bool.false_ne_true)]

/-- C6 witness: in the concrete two-row run of `m0` the single production
step is rejected and row 1 is exactly row 0. -/
theorem C6_witness :
    [[(1 : ℚ)], [1]].getD (0 + 1) [] = [[(1 : ℚ)], [1]].getD 0 [] :=
  ((C6_repeat_on_reject.1 m0 2 [1] [] 1 [[1], [1]] (Chain.mk [1] [0, 0] 2 2)
      (Chain.mk [1] [0] 1 1) calibrate_m0_eval sample_m0_two_eval 0
      (by decide)).2.2 rfl)

/-- C7 counterexample: in the calibration loop of metropolis_backup.py, a
realizable rejected proposal appends nothing to the acceptance history.
With multipliers [-1, 0] on the one-spin configuration [+1] (so Sp = 1),
the proposed flip at index 0 has spin = -1 and
dE = 2·(-1)·(-1) + 4·(-1)·(-1)·(2·1 - 1 + (-1)) = 2 ≥ 0, so the rule
draws P and accepts iff P < exp(-2); np.exp(-2) ≈ 0.1353, modelled here
by expf (-2) = 27/200, and the draw P = 1/2 — a value np.random.random()
can actually return and which lies above exp(-2) however it is
approximated — is rejected.  After this one proposal starting from the
empty history, the history still has length 0, not 1. -/
theorem C7_counterexample :
    (bkupCalStep (fun _ => 27 / 200) [-1, 0] 1 (1 / 2) [1] 1 [] 0).2.2.length
      ≠ ([] : List ℕ).length + 1 := by
  norm_num [bkupCalStep, acceptance, dE]

/-- C7 (amended): in src/metropolis.py every proposal appends exactly one
outcome — 1 on accept, 0 on reject — during both calibration and
production sampling, so the history grows by exactly the number of
proposals made; in src/metropolis_backup.py, by contrast, the calibration
loop appends an outcome only for accepted proposals. -/
theorem C7_history_per_proposal :
    (∀ (m : Model) (st : Chain),
      (mcStep m st).hist = st.hist ++ [if stepAccepted m st then 1 else 0] ∧
      (mcStep m st).hist.length = st.hist.length + 1) ∧
    (∀ (m : Model) (st : Chain) (n : ℕ),
      (chainIter m st n).hist.length = st.hist.length + n) ∧
    (∀ (m : Model) (fuel : ℕ) (st st2 : Chain), calLoop m fuel st = some st2 →
      ∃ n, n ≤ fuel ∧ st2 = chainIter m st n) ∧
    (∀ (m : Model) (N : ℕ) (s0 : List ℚ) (h0 : List ℕ) (fuel : ℕ)
      (traj : List (List ℚ)) (stf stC : Chain),
      calibrate m s0 h0 fuel = some stC →
      sample m N s0 h0 fuel = some (traj, stf) →
      stf.hist.length = stC.hist.length + (N - 1)) ∧
    (∀ (expf : ℚ → ℚ) (L : List ℚ) (S : ℕ) (P : ℚ) (cfg : List ℚ) (Sp : ℚ)
      (hist : List ℕ) (index : ℕ),
      (bkupCalStep expf L S P cfg Sp hist index).2.2
        = if (acceptance expf (dE L S Sp (-(cfg.getD index 0)) index) P).1
          then hist ++ [1] else hist) := by
  refine ⟨?_, chainIter_hist_length, ?_, ?_, ?_⟩
  · intro m st
    refine ⟨mcStep_hist m st, ?_⟩
    rw [mcStep_hist]
    simp
  · intro m fuel st st2 h
    exact calLoop_some_chainIter h
  · intro m N s0 h0 fuel traj stf stC hcal hrun
    by_cases hN0 : N = 0
    · unfold sample at hrun
      rw [if_pos hN0] at hrun
      exact absurd hrun (by simp)
    · obtain ⟨_, hstf⟩ := sample_some_spec hN0 hcal hrun
      rw [hstf, sampleRows_snd, chainIter_hist_length]
  · intro expf L S P cfg Sp hist index
    by_cases h : (acceptance expf (dE L S Sp (-(cfg.getD index 0)) index) P).1
        = true
    · simp only [bkupCalStep]
      rw [if_pos h, if_pos h]
    · simp only [bkupCalStep]
      rw [if_neg h, if_neg h]

/-- C7 witness: in the concrete two-row run of `m0`, calibration ends with
history of length 1 and the single production proposal extends it to
length 2 = 1 + (N - 1). -/
theorem C7_witness :
    (Chain.mk [1] [0, 0] 2 2).hist.length
      = (Chain.mk [1] [0] 1 1).hist.length + (2 - 1) :=
  C7_history_per_proposal.2.2.2.1 m0 2 [1] [] 1 [[1], [1]]
    (Chain.mk [1] [0, 0] 2 2) (Chain.mk [1] [0] 1 1)
    calibrate_m0_eval sample_m0_two_eval

/-- C8: the acceptance rule is total and never evaluates `exp` on a
positive argument: when the energy decreases it accepts before reaching
`exp`; otherwise the argument `E_old - E_new` (resp. `-dE`) is ≤ 0, the
acceptance threshold `exp` of it lies in (0, 1], and the decision is
exactly the comparison of the uniform draw with that threshold.  The same
holds for the dE-based formulation. -/
theorem C8_acceptance_totality (last_energy new_energy P dEv Q : ℝ) :
    (new_energy < last_energy → choiceReal last_energy new_energy P = true) ∧
    (last_energy ≤ new_energy →
      last_energy - new_energy ≤ 0 ∧
      0 < Real.exp (last_energy - new_energy) ∧
      Real.exp (last_energy - new_energy) ≤ 1 ∧
      (choiceReal last_energy new_energy P = true
        ↔ P < Real.exp (last_energy - new_energy))) ∧
    (dEv < 0 → acceptanceReal dEv Q = true) ∧
    (0 ≤ dEv →
      -dEv ≤ 0 ∧ 0 < Real.exp (-dEv) ∧ Real.exp (-dEv) ≤ 1 ∧
      (acceptanceReal dEv Q = true ↔ Q < Real.exp (-dEv))) := by
  refine ⟨?_, ?_, ?_, ?_⟩
  · intro h
    unfold choiceReal
    rw [if_pos h]
  · intro h
    have harg : last_energy - new_energy ≤ 0 := by linarith
    refine ⟨harg, Real.exp_pos _, ?_, ?_⟩
    · calc Real.exp (last_energy - new_energy) ≤ Real.exp 0 :=
            Real.exp_le_exp.mpr harg
        _ = 1 := Real.exp_zero
    · unfold choiceReal
      rw [if_neg (not_lt.mpr h)]
      by_cases hp : P < Real.exp (last_energy - new_energy)
      · rw [if_pos hp]; simp [hp]
      · rw [if_neg hp]; simp [hp]
  · intro h
    unfold acceptanceReal
    rw [if_pos h]
  · intro h
    have harg : -dEv ≤ 0 := by linarith
    refine ⟨harg, Real.exp_pos _, ?_, ?_⟩
    · calc Real.exp (-dEv) ≤ Real.exp 0 := Real.exp_le_exp.mpr harg
        _ = 1 := Real.exp_zero
    · unfold acceptanceReal
      rw [if_neg (not_lt.mpr h)]
      by_cases hp : Q < Real.exp (-dEv)
      · rw [if_pos hp]; simp [hp]
      · rw [if_neg hp]; simp [hp]

/-- C8 witness: a decreasing energy move is accepted unconditionally. -/
theorem C8_witness : choiceReal 1 0 (1 / 2) = true :=
  (C8_acceptance_totality 1 0 (1 / 2) 0 0).1 zero_lt_one

/-- C9: `set_hamiltonian` raises exactly when the two sequences differ in
length; it never touches `configs` (no sampling is attempted), and on equal
lengths it succeeds, storing both sequences. -/
theorem C9_set_hamiltonian_mismatch (st : MetInit) (L : List ℚ)
    (fs : List (List ℚ → ℚ)) :
    ((set_hamiltonian st L fs).2.isSome ↔ L.length ≠ fs.length) ∧
    (set_hamiltonian st L fs).1.configs = st.configs ∧
    (L.length = fs.length →
      set_hamiltonian st L fs
        = ({ st with L_multipliers := some L, constraint_funcs := some fs },
           none)) := by
  unfold set_hamiltonian
  by_cases h : L.length = fs.length
  · rw [if_neg (by simpa using h)]
    exact ⟨by simp [h], rfl, fun _ => rfl⟩
  · rw [if_pos (by simpa using h)]
    exact ⟨by simp [h], rfl, fun hc => absurd hc h⟩

/-- C9 witness: one multiplier with one constraint function succeeds and
stores both. -/
theorem C9_witness :
    set_hamiltonian
        { S := 4, M := 10, N := 5, max_acceptance := 1 / 2, history := [],
          L_multipliers := none, constraint_funcs := none, configs := none }
        [1] [fun s => s.sum]
      = ({ S := 4, M := 10, N := 5, max_acceptance := 1 / 2, history := [],
           L_multipliers := some [1],
           constraint_funcs := some [fun s => s.sum], configs := none },
         none) :=
  (C9_set_hamiltonian_mismatch
    { S := 4, M := 10, N := 5, max_acceptance := 1 / 2, history := [],
      L_multipliers := none, constraint_funcs := none, configs := none }
    [1] [fun s => s.sum]).2.2 rfl

/-- C10: `set_hamiltonian` is not atomic on error — for sequences of
differing lengths it raises, yet the sampler state afterwards retains the
mismatched multipliers and constraint functions. -/
theorem C10_set_hamiltonian_not_atomic (st : MetInit) (L : List ℚ)
    (fs : List (List ℚ → ℚ)) (h : L.length ≠ fs.length) :
    (set_hamiltonian st L fs).2.isSome = true ∧
    (set_hamiltonian st L fs).1.L_multipliers = some L ∧
    (set_hamiltonian st L fs).1.constraint_funcs = some fs := by
  unfold set_hamiltonian
  rw [if_pos (by simpa using h)]
  exact ⟨rfl, rfl, rfl⟩

/-- C10 witness: two multipliers with three constraint functions raise, yet
both mismatched sequences are left stored on the sampler. -/
theorem C10_witness :
    (set_hamiltonian
        { S := 4, M := 10, N := 5, max_acceptance := 1 / 2, history := [],
          L_multipliers := none, constraint_funcs := none, configs := none }
        [1, 2] [fun _ => 0, fun _ => 0, fun _ => 0]).2.isSome = true ∧
    (set_hamiltonian
        { S := 4, M := 10, N := 5, max_acceptance := 1 / 2, history := [],
          L_multipliers := none, constraint_funcs := none, configs := none }
        [1, 2] [fun _ => 0, fun _ => 0, fun _ => 0]).1.L_multipliers
      = some [1, 2] ∧
    (set_hamiltonian
        { S := 4, M := 10, N := 5, max_acceptance := 1 / 2, history := [],
          L_multipliers := none, constraint_funcs := none, configs := none }
        [1, 2] [fun _ => 0, fun _ => 0, fun _ => 0]).1.constraint_funcs
      = some [fun _ => 0, fun _ => 0, fun _ => 0] :=
  C10_set_hamiltonian_not_atomic
    { S := 4, M := 10, N := 5, max_acceptance := 1 / 2, history := [],
      L_multipliers := none, constraint_funcs := none, configs := none }
    [1, 2] [fun _ => 0, fun _ => 0, fun _ => 0] (by decide)

end Forests
